import Mathlib

/-!
Verification of the reconciliation pipeline in `services_portal_metrics.py`.

The pipeline's tabular data is shallowly embedded: a DataFrame becomes a
`List` of rows (structures), currency amounts become `ℚ`, Python strings
become lists of Unicode code points (`PyStr`), dates become `Nat` ordinals
(a valid, non-NaT date), and fallible steps return `Except`/`Option`.
Python's `round(x, 2)` (round-half-to-even) is modelled exactly on `ℚ`.
-/

set_option synthInstance.maxSize 512

namespace ServicesPortal

/-- A Python string, modelled as its list of Unicode code points. -/
abbrev PyStr := List Nat

/-- Code points of a Lean string literal, for writing concrete `PyStr` values. -/
def pystr (s : String) : PyStr := s.data.map Char.toNat

/-- Whitespace test used by Python's `str.strip` / `\s` (space, tab, LF, VT, FF, CR). -/
def isWs (c : Nat) : Bool := c = 32 || c = 9 || c = 10 || c = 11 || c = 12 || c = 13

/-- Python `str.lower` on one code point (ASCII letters; other points unchanged). -/
def charLower (c : Nat) : Nat := if 65 ≤ c ∧ c ≤ 90 then c + 32 else c

/-- Python `str.lower`. -/
def pyLower (s : PyStr) : PyStr := s.map charLower

/-- Python `str.strip`: drop leading and trailing whitespace. -/
def pyStrip (s : PyStr) : PyStr :=
  ((s.dropWhile isWs).reverse.dropWhile isWs).reverse

/-!
Generic table machinery for `lumpsum_deduping(df, merge_keys)`.

A row of the joined frame is split as (the merge-key columns, the `Total`
column, all remaining columns): `LRow κ ρ`.  `sortBy` is `sort_values`
(stable, by the key columns), `groupApply` is `groupby(merge_keys,
group_keys=False).apply(...)` (groups are all rows with equal key, emitted
in order of first appearance in the sorted frame), and `dropDupKeysAux`
is `drop_duplicates` (keep the first row for each key, where the key for
full-row de-duplication is the whole row).
-/

/-- A row of a joined frame, split as (merge-key columns, `Total`, other columns). -/
structure LRow (κ ρ : Type) where
  key : κ
  total : ℚ
  rest : ρ
deriving DecidableEq, Repr

/-- Stable insertion into a sorted list, for `sort_values`. -/
def insertBy {α : Type} (le : α → α → Bool) (a : α) : List α → List α
  | [] => [a]
  | b :: l => if le a b then a :: b :: l else b :: insertBy le a l

/-- Stable sort by a Boolean comparator: `DataFrame.sort_values` on the key columns. -/
def sortBy {α : Type} (le : α → α → Bool) : List α → List α
  | [] => []
  | a :: l => insertBy le a (sortBy le l)

/-- Pandas `drop_duplicates` with `keep="first"` on the key `f`: keep each
row whose key has not been seen before. -/
def dropDupKeysAux {α κ : Type} [DecidableEq κ] (f : α → κ) (seen : List κ) :
    List α → List α
  | [] => []
  | a :: l =>
    if f a ∈ seen then dropDupKeysAux f seen l
    else a :: dropDupKeysAux f (f a :: seen) l

/-- Pandas `groupby(key, group_keys=False).apply(f)`: apply `f` to each
group (all rows with equal key, in frame order), concatenating the groups
in order of first appearance. -/
def groupApply {α κ : Type} [DecidableEq κ] (f : List α → List α) (key : α → κ)
    (l : List α) : List α :=
  (dropDupKeysAux key [] l).flatMap (fun a => f (l.filter (fun b => key b = key a)))

/-- The `clear_lumpsums` inner function: in a group, every row after the
first has its `Total` set to 0. -/
def clear_lumpsums {κ ρ : Type} : List (LRow κ ρ) → List (LRow κ ρ)
  | [] => []
  | r :: grp => r :: grp.map (fun x => { x with total := 0 })

/-- The `lumpsum_deduping(df, merge_keys)` function: sort by the merge keys
(`Ordered_on` is part of the key whenever that column is present), zero every
non-first `Total` within each group, then drop exact-duplicate rows. -/
def lumpsum_deduping {κ ρ : Type} [DecidableEq κ] [DecidableEq ρ]
    (le : κ → κ → Bool) (df : List (LRow κ ρ)) : List (LRow κ ρ) :=
  dropDupKeysAux id []
    (groupApply clear_lumpsums LRow.key (sortBy (fun a b => le a.key b.key) df))

/-- Stated from the spec's words for the de-duplication step: in the sorted
frame, a row whose join key has already appeared keeps its place but its
`Total` is set to zero (so only the first row of each group keeps its
amount); afterwards exact-duplicate rows are dropped. -/
def zeroNonFirst {κ ρ : Type} [DecidableEq κ] (seen : List κ) :
    List (LRow κ ρ) → List (LRow κ ρ)
  | [] => []
  | r :: l =>
    if r.key ∈ seen then { r with total := 0 } :: zeroNonFirst seen l
    else r :: zeroNonFirst (r.key :: seen) l

/-- The spec's description of `lumpsum_deduping`, as a function. -/
def lumpsum_spec {κ ρ : Type} [DecidableEq κ] [DecidableEq ρ] [LinearOrder κ]
    (df : List (LRow κ ρ)) : List (LRow κ ρ) :=
  dropDupKeysAux id []
    (zeroNonFirst [] (sortBy (fun a b : LRow κ ρ => decide (a.key ≤ b.key)) df))

/-- The sum of the `Total` column. -/
def sumTotal {κ ρ : Type} (l : List (LRow κ ρ)) : ℚ := (l.map LRow.total).sum

/-- Equal keys occur contiguously: whenever two rows of a sublist triple
share a key, the row between them has that key too.  This holds for any
frame sorted by its key columns. -/
def Grouped {α κ : Type} (key : α → κ) (l : List α) : Prop :=
  ∀ a b c, List.Sublist [a, b, c] l → key a = key c → key b = key a

/-- Python's `round(x, 2)` on an exact decimal value: scale by 100, round
half to even, unscale. -/
def round2 (q : ℚ) : ℚ :=
  let s := q * 100
  let f := ⌊s⌋
  let frac := s - f
  let r : ℤ :=
    if frac < 1/2 then f
    else if 1/2 < frac then f + 1
    else if f % 2 = 0 then f else f + 1
  (r : ℚ) / 100

/-- The regex replacement `^exec\s+` -> `"executive "` of `standardize_location`. -/
def execReplace (s : PyStr) : PyStr :=
  match s with
  | 101 :: 120 :: 101 :: 99 :: c :: rest =>
    if isWs c then pystr "executive " ++ ((c :: rest).dropWhile isWs)
    else 101 :: 120 :: 101 :: 99 :: c :: rest
  | s => s

/-- `standardize_location` applied to one cell: strip, lowercase, and
rewrite a leading `exec ` into `executive `. -/
def standardize_location (s : PyStr) : PyStr := execReplace (pyLower (pyStrip s))

/-!
Aggregation and status derivation (`run`, lines 580-645).

`df_merged` rows relevant to this stage are projected to `CompletedLine`
(after the renames `Total` -> `PreOrderTotal`, `Status` -> `PreOrderStatus`).
-/

/-- A `df_merged` row as seen by the consolidated-payment stage. -/
structure CompletedLine where
  location : PyStr
  event : PyStr
  eventDate : Nat
  preOrderStatus : String
  preOrderTotal : ℚ
deriving DecidableEq, Repr

/-- Lines 582-583: standardize `Location`, strip/lower `Event`. -/
def normalize_completed (r : CompletedLine) : CompletedLine :=
  { r with location := standardize_location r.location,
           event := pyLower (pyStrip r.event) }

/-- Lines 581-590: normalize, keep `PreOrderStatus == "Completed"`, then
keep the caller-selected `(event, date)` pair. -/
def completed_filter (rows : List CompletedLine) (selEvent : PyStr)
    (selDate : Nat) : List CompletedLine :=
  ((rows.map normalize_completed).filter
      (fun r => decide (r.preOrderStatus = "Completed"))).filter
    (fun r => decide (r.event = pyLower (pyStrip selEvent) ∧ r.eventDate = selDate))

/-- One row of `df_box_totals`. -/
structure BoxTotalRow where
  location : PyStr
  event : PyStr
  boxTotal : ℚ
deriving DecidableEq, Repr

/-- Lines 597-602: `groupby(["Location", "Event"]).sum()` of `PreOrderTotal`,
one output row per distinct key (in order of first appearance). -/
def box_totals (rows : List CompletedLine) : List BoxTotalRow :=
  (dropDupKeysAux (fun r => (r.location, r.event)) [] rows).map
    (fun r => ⟨r.location, r.event,
      ((rows.filter
          (fun x => decide (x.location = r.location ∧ x.event = r.event))).map
        CompletedLine.preOrderTotal).sum⟩)

/-- One row of `df_consolidated` after standardization (lines 577-578). -/
structure ConsolidatedRow where
  location : PyStr
  event : PyStr
  drawdown : ℚ
  creditCard : ℚ
  purchaseOrders : ℚ
  eft : ℚ
deriving DecidableEq, Repr

/-- One row of `df_box_merged` (line 605): a box total left-joined with the
consolidated payment columns; `none` models the NaN cells of an unmatched row. -/
structure BoxMergedRow where
  location : PyStr
  event : PyStr
  boxTotal : ℚ
  drawdown : Option ℚ
  creditCard : Option ℚ
  purchaseOrders : Option ℚ
  eft : Option ℚ
deriving DecidableEq, Repr

/-- Line 605: `df_box_totals.merge(df_consolidated, how="left",
on=["Location", "Event"])`. -/
def box_merge (bts : List BoxTotalRow) (cons : List ConsolidatedRow) :
    List BoxMergedRow :=
  bts.flatMap (fun b =>
    match cons.filter
        (fun c => decide (c.location = b.location ∧ c.event = b.event)) with
    | [] => [⟨b.location, b.event, b.boxTotal, none, none, none, none⟩]
    | l => l.map (fun c => ⟨b.location, b.event, b.boxTotal,
        some c.drawdown, some c.creditCard, some c.purchaseOrders, some c.eft⟩))

/-- `assign_payment_status(row)`: round the box total and the four payment
amounts to two decimals, then return the first method whose amount is
positive and exactly equal to the total, in the order Drawdown, Credit
Card, Purchase Order, EFT; otherwise the empty string.  A NaN amount of an
unmatched row is read as 0 here: in Python every comparison on NaN is
false, and 0 falsifies the same guards. -/
def assign_payment_status (row : BoxMergedRow) : String :=
  let total_2dec := round2 row.boxTotal
  let drawdown_2dec := round2 (row.drawdown.getD 0)
  let credit_2dec := round2 (row.creditCard.getD 0)
  let purchase_order_2dec := round2 (row.purchaseOrders.getD 0)
  let eft_2dec := round2 (row.eft.getD 0)
  if 0 < drawdown_2dec ∧ total_2dec = drawdown_2dec then "Drawdown"
  else if 0 < credit_2dec ∧ total_2dec = credit_2dec then "Credit Card"
  else if 0 < purchase_order_2dec ∧ total_2dec = purchase_order_2dec then "Purchase Order"
  else if 0 < eft_2dec ∧ total_2dec = eft_2dec then "EFT"
  else ""

/-- Stated from the claim's words: round to two decimals and take the first
exact equality in the priority order, with no positivity requirement. -/
def assign_payment_status_claim (row : BoxMergedRow) : String :=
  let total_2dec := round2 row.boxTotal
  let drawdown_2dec := round2 (row.drawdown.getD 0)
  let credit_2dec := round2 (row.creditCard.getD 0)
  let purchase_order_2dec := round2 (row.purchaseOrders.getD 0)
  let eft_2dec := round2 (row.eft.getD 0)
  if total_2dec = drawdown_2dec then "Drawdown"
  else if total_2dec = credit_2dec then "Credit Card"
  else if total_2dec = purchase_order_2dec then "Purchase Order"
  else if total_2dec = eft_2dec then "EFT"
  else ""

/-- Line 611: `df_box_totals["BoxTotal"].fillna(0).sum()`. -/
def sum_preorders (bts : List BoxTotalRow) : ℚ :=
  (bts.map BoxTotalRow.boxTotal).sum

/-- Lines 614-618: the four consolidated columns of `df_box_merged`,
summed with `fillna(0)` and added. -/
def sum_consolidated (merged : List BoxMergedRow) : ℚ :=
  (merged.map (fun r => r.drawdown.getD 0)).sum
  + (merged.map (fun r => r.creditCard.getD 0)).sum
  + (merged.map (fun r => r.purchaseOrders.getD 0)).sum
  + (merged.map (fun r => r.eft.getD 0)).sum

/-- Python's `abs` on a rational. -/
def pyAbs (q : ℚ) : ℚ := if q < 0 then -q else q

/-- Lines 605-635: merge box totals with the consolidated report, assign
`PaymentStatus`, then gate on `abs(sum_preorders - sum_consolidated) >
0.01`: on a mismatch the run stops (`st.error`/`st.stop`) carrying both
sums, and no export is produced; otherwise processing continues with the
statused rows. -/
def consolidated_sum_check (bts : List BoxTotalRow) (cons : List ConsolidatedRow) :
    Except (ℚ × ℚ) (List (BoxMergedRow × String)) :=
  let merged := box_merge bts cons
  let statused := merged.map (fun r => (r, assign_payment_status r))
  let sp := sum_preorders bts
  let sc := sum_consolidated merged
  if 1/100 < pyAbs (sp - sc) then Except.error (sp, sc) else Except.ok statused

/-- Lines 643-645: derive `ConsolidatedPaymentStatus` from
`ConsolidatedPaymentType` (note the plural "Purchase Orders" in the list). -/
def consolidated_payment_status (x : String) : String :=
  if x ∈ ["Credit Card", "Purchase Orders", "EFT"] then "Completed"
  else if x = "Drawdown" then "Pending"
  else ""

/-!
Reference resolution (`map_event_id`, lines 268-274, applied at lines
369-370).
-/

/-- A `df_manual` row before `EventId` assignment; `eventDate = none`
models a missing or NaT `Event_Date`, `rest` abstracts the other columns. -/
structure PreManualRow where
  location : PyStr
  event : PyStr
  eventDate : Option Nat
  rest : Nat
deriving DecidableEq, Repr

/-- `map_event_id(row, event_map)`: look up the stripped
`(Location, Event, Event_Date)` triple; `dict.get(..., None)` gives `none`
when the key is absent. -/
def map_event_id (event_map : PyStr × PyStr × Option Nat → Option Nat)
    (r : PreManualRow) : Option Nat :=
  event_map (pyStrip r.location, pyStrip r.event, r.eventDate)

/-- Line 369: `df_manual["EventId"] = df_manual.apply(map_event_id, axis=1)`. -/
def assign_event_ids (event_map : PyStr × PyStr × Option Nat → Option Nat)
    (rows : List PreManualRow) : List (PreManualRow × Option Nat) :=
  rows.map (fun r => (r, map_event_id event_map r))

/-- Line 370: `pd.to_numeric(...).fillna(0).astype(int)` on the assigned
ids (an unresolved `none` becomes the sentinel 0). -/
def coerce_event_ids (rows : List (PreManualRow × Option Nat)) :
    List (PreManualRow × Nat) :=
  rows.map (fun p => (p.1, p.2.getD 0))

/-!
Record linkage (`process_api_menu` lines 260-266, `run` lines 375-377).
-/

/-- A `df_manual` row at the merge step (line 376), `EventId` already
coerced to int; `orderedOn` and `eventDate` are date ordinals. -/
structure ManualRow where
  eventId : Nat
  location : PyStr
  event : PyStr
  guestName : PyStr
  guestEmail : PyStr
  orderType : PyStr
  orderedOn : Nat
  eventDate : Nat
  total : ℚ
  licenceType : PyStr
  status : String
deriving DecidableEq, Repr

/-- A `df_menu` row built by `process_api_menu`. -/
structure ApiMenuRow where
  eventId : Nat
  location : PyStr
  event : PyStr
  kickOffEventStart : Nat
  guestName : PyStr
  guestEmail : PyStr
  orderType : PyStr
  menuItem : PyStr
  orderedAmount : ℚ
  pricePerUnit : ℚ
  apiPrice : ℚ
  status : String
deriving DecidableEq, Repr

/-- The merge key of line 375. -/
def manualKey6 (m : ManualRow) : Nat × PyStr × PyStr × PyStr × PyStr × PyStr :=
  (m.eventId, m.location, m.event, m.guestName, m.guestEmail, m.orderType)

/-- The merge key of line 375, on the API side. -/
def menuKey6 (a : ApiMenuRow) : Nat × PyStr × PyStr × PyStr × PyStr × PyStr :=
  (a.eventId, a.location, a.event, a.guestName, a.guestEmail, a.orderType)

/-- The `drop_duplicates` subset of lines 262-264. -/
def menuKey7 (a : ApiMenuRow) :
    Nat × PyStr × PyStr × PyStr × PyStr × PyStr × PyStr :=
  (a.eventId, a.location, a.event, a.guestName, a.guestEmail, a.orderType, a.menuItem)

/-- Lines 260-265 of `process_api_menu`: `df_menu.drop_duplicates(subset=
[EventId, Location, Event, Guest_name, Guest_email, Order_type, Menu_Item])`,
keeping the first row of each key. -/
def process_api_menu_dedup (menu : List ApiMenuRow) : List ApiMenuRow :=
  dropDupKeysAux menuKey7 [] menu

/-- The sort/group key of the merged frame: the six merge columns plus
`Ordered_on`, which is present in `df_merged` and therefore appended by
`lumpsum_deduping`. -/
abbrev MKey := Nat × PyStr × PyStr × PyStr × PyStr × PyStr × Nat

/-- The non-key columns of a merged row; API-side fields are `none` for an
unmatched left row (NaN), and `Status` keeps the manual side
(`Status_manual` is renamed, `Status_api` dropped, lines 383-386). -/
structure MergedRest where
  eventDate : Nat
  licenceType : PyStr
  status : String
  kickOffEventStart : Option Nat
  menuItem : Option PyStr
  orderedAmount : Option ℚ
  pricePerUnit : Option ℚ
  apiPrice : Option ℚ
deriving DecidableEq, Repr

/-- One merged row, from a manual row and its (optional) matching menu row. -/
def merge_row (m : ManualRow) (a : Option ApiMenuRow) : LRow MKey MergedRest :=
  ⟨(m.eventId, m.location, m.event, m.guestName, m.guestEmail, m.orderType, m.orderedOn),
   m.total,
   ⟨m.eventDate, m.licenceType, m.status,
    a.map ApiMenuRow.kickOffEventStart, a.map ApiMenuRow.menuItem,
    a.map ApiMenuRow.orderedAmount, a.map ApiMenuRow.pricePerUnit,
    a.map ApiMenuRow.apiPrice⟩⟩

/-- Line 376: `df_manual.merge(df_menu, how="left", on=merge_keys)`: each
manual row is emitted once per matching menu row, or once with NaN API
fields when nothing matches. -/
def merge_manual_api (ms : List ManualRow) (menu : List ApiMenuRow) :
    List (LRow MKey MergedRest) :=
  ms.flatMap (fun m =>
    match menu.filter (fun a => decide (menuKey6 a = manualKey6 m)) with
    | [] => [merge_row m none]
    | l => l.map (fun a => merge_row m (some a)))

/-- Strict lexicographic comparison of Python strings. -/
def pyLt : PyStr → PyStr → Bool
  | [], [] => false
  | [], _ :: _ => true
  | _ :: _, [] => false
  | a :: s, b :: t => if a < b then true else if b < a then false else pyLt s t

/-- Column-wise ascending comparison of merged-row sort keys, as
`sort_values(merge_keys)` orders them. -/
def mkeyLe (x y : MKey) : Bool :=
  if x.1 < y.1 then true else if y.1 < x.1 then false
  else if pyLt x.2.1 y.2.1 then true else if pyLt y.2.1 x.2.1 then false
  else if pyLt x.2.2.1 y.2.2.1 then true else if pyLt y.2.2.1 x.2.2.1 then false
  else if pyLt x.2.2.2.1 y.2.2.2.1 then true
  else if pyLt y.2.2.2.1 x.2.2.2.1 then false
  else if pyLt x.2.2.2.2.1 y.2.2.2.2.1 then true
  else if pyLt y.2.2.2.2.1 x.2.2.2.2.1 then false
  else if pyLt x.2.2.2.2.2.1 y.2.2.2.2.2.1 then true
  else if pyLt y.2.2.2.2.2.1 x.2.2.2.2.2.1 then false
  else decide (x.2.2.2.2.2.2 ≤ y.2.2.2.2.2.2)

/-- The seven fields named by the uniqueness claim, read off a merged row. -/
def merged_key7 (r : LRow MKey MergedRest) :
    Nat × PyStr × PyStr × PyStr × PyStr × PyStr × Option PyStr :=
  (r.key.1, r.key.2.1, r.key.2.2.1, r.key.2.2.2.1, r.key.2.2.2.2.1,
   r.key.2.2.2.2.2.1, r.rest.menuItem)

/-!
Per-event API fetch (`fetch_api_preorders`, lines 169-176).
-/

/-- One entry of a `CateringPreorders` payload, tagged with its event. -/
structure CateringRecord where
  eventId : Nat
  payload : Nat
deriving DecidableEq, Repr

/-- The observable part of one HTTP response: status code and the
`Data.CateringPreorders` list. -/
structure ApiResponse where
  status : Nat
  caterings : List CateringRecord
deriving DecidableEq, Repr

/-- `fetch_api_preorders(event_ids, headers)`: one GET per event id, in
order; a 200 response has its records extended onto the batch, any other
status contributes nothing and the loop moves on. -/
def fetch_api_preorders (respond : Nat → ApiResponse) (event_ids : List Nat) :
    List CateringRecord :=
  event_ids.flatMap (fun eid =>
    if (respond eid).status = 200 then (respond eid).caterings else [])

/-- The user-visible messages emitted by `fetch_api_preorders`: the source
loop contains no logging, `st.*` call, or print in either branch, so the
emitted message list is empty whatever the responses are. -/
def fetch_api_preorders_messages (_ : Nat → ApiResponse) (_ : List Nat) :
    List String := []

/-!
Consolidated payment report: preprocessing and the fixture-match check
(`preprocess_consolidated_payment_report` lines 287-302, `run` lines
542-574).
-/

/-- Substring test, Python's `in` on strings. -/
def containsSub (sub : PyStr) : PyStr → Bool
  | [] => sub.isEmpty
  | c :: t => sub.isPrefixOf (c :: t) || containsSub sub t

/-- Decimal digit test on a code point. -/
def isDigit (c : Nat) : Bool := decide (48 ≤ c ∧ c ≤ 57)

/-- Value of a digit string. -/
def digitsVal (l : PyStr) : Nat := l.foldl (fun acc d => acc * 10 + (d - 48)) 0

/-- Parse an unsigned decimal numeral (digits, optionally one point). -/
def parseUnsigned (l : PyStr) : Option ℚ :=
  let ip := l.takeWhile isDigit
  let rest := l.dropWhile isDigit
  match rest with
  | [] => if ip.isEmpty then none else some (digitsVal ip)
  | 46 :: fp =>
    if fp.all isDigit && !(ip.isEmpty && fp.isEmpty) then
      some ((digitsVal ip : ℚ) + (digitsVal fp : ℚ) / (10 ^ fp.length))
    else none
  | _ => none

/-- `pd.to_numeric(..., errors="coerce")` on one cell: `none` is NaN. -/
def pyToNumeric (l : PyStr) : Option ℚ :=
  match l with
  | 45 :: rest => (parseUnsigned rest).map (fun q => -q)
  | _ => parseUnsigned l

/-- Lines 299-301: strip `£` and `,`, coerce to a number, NaN becomes 0. -/
def parse_currency (s : PyStr) : ℚ :=
  (pyToNumeric (pyStrip (s.filter (fun c => decide (c ≠ 163 ∧ c ≠ 44))))).getD 0

/-- A raw row of the consolidated sheet (header row 6), after the
`Credit card` -> `Credit Card` rename: the five `keep_cols` cells plus
whatever other columns the sheet has (`other`, dropped by the projection). -/
structure RawConsRow (ρ : Type) where
  location : PyStr
  drawdownCell : PyStr
  creditCardCell : PyStr
  purchaseOrdersCell : PyStr
  eftCell : PyStr
  other : ρ

/-- A preprocessed consolidated row: only `Location` and the four amount
columns survive; in particular no `Event` or `EventDate` column exists. -/
structure ConsPayRow where
  location : PyStr
  drawdown : ℚ
  creditCard : ℚ
  purchaseOrders : ℚ
  eft : ℚ
deriving DecidableEq, Repr

/-- `preprocess_consolidated_payment_report(file)`: keep only the five
`keep_cols`, drop rows whose `Location` contains "total" (case-insensitive),
and convert the currency columns (all-empty rows are dropped upstream by
`dropna(how="all")` and are not modelled). -/
def preprocess_consolidated_payment_report {ρ : Type} (raw : List (RawConsRow ρ)) :
    List ConsPayRow :=
  (raw.filter (fun r => !containsSub (pystr "total") (pyLower r.location))).map
    (fun r => ⟨r.location, parse_currency r.drawdownCell,
      parse_currency r.creditCardCell, parse_currency r.purchaseOrdersCell,
      parse_currency r.eftCell⟩)

/-- `df_consolidated` after lines 549-556: the absent `Event`/`EventDate`
columns are injected from the fixture selection, then `Event` is stripped
and lowered once more and `EventDate` re-parsed (the identity on a valid
date). -/
structure ConsUpRow where
  location : PyStr
  drawdown : ℚ
  creditCard : ℚ
  purchaseOrders : ℚ
  eft : ℚ
  event : PyStr
  eventDate : Nat
deriving DecidableEq, Repr

/-- Lines 549-556 applied to every row. -/
def inject_fixture (dfc : List ConsPayRow) (selEvent : PyStr) (selDate : Nat) :
    List ConsUpRow :=
  dfc.map (fun r =>
    ⟨r.location, r.drawdown, r.creditCard, r.purchaseOrders, r.eft,
     pyLower (pyStrip (pyLower (pyStrip selEvent))), selDate⟩)

/-- Lines 559-574: build the match mask against the selected fixture, stop
with an error carrying `(match_count, total_rows)` when any row disagrees,
otherwise keep the matching rows. -/
def fixture_match_check (dfc : List ConsPayRow) (selEvent : PyStr)
    (selDate : Nat) : Except (Nat × Nat) (List ConsUpRow) :=
  let df := inject_fixture dfc selEvent selDate
  let selLower := pyLower (pyStrip selEvent)
  let matched := df.filter
    (fun r => decide (r.event = selLower ∧ r.eventDate = selDate))
  if matched.length ≠ df.length then Except.error (matched.length, df.length)
  else Except.ok matched

/-- A concrete response family for the fetch loop: event 2 fails with
HTTP 500, every other event succeeds with one record. -/
def respondEx (e : Nat) : ApiResponse :=
  if e = 2 then ⟨500, [⟨e, 20⟩]⟩ else ⟨200, [⟨e, 21⟩]⟩

/-- A joined row whose box total and payment amounts are all zero. -/
def zeroPayRow : BoxMergedRow := ⟨[98], [102], 0, some 0, some 0, some 0, some 0⟩

instance : DecidableEq MKey := inferInstance

instance : DecidableEq (Nat × PyStr × PyStr × PyStr × PyStr × PyStr) :=
  inferInstance

instance : DecidableEq (Nat × PyStr × PyStr × PyStr × PyStr × PyStr × Option PyStr) :=
  inferInstance

/-- A first manual row for the linkage counterexample. -/
def mA : ManualRow := ⟨7, [98], [102], [106], [101], [70], 1, 100, 20, [103], "Completed"⟩

/-- A second manual row sharing `mA`'s six merge keys but ordered later. -/
def mB : ManualRow := ⟨7, [98], [102], [106], [101], [70], 2, 100, 30, [103], "Completed"⟩

/-- An API menu line with the same six merge keys. -/
def aA : ApiMenuRow := ⟨7, [98], [102], 100, [106], [101], [70], [77], 1, 20, 20, "Completed"⟩

theorem charLower_idem (c : Nat) : charLower (charLower c) = charLower c := by
  unfold charLower
  by_cases h : 65 ≤ c ∧ c ≤ 90
  · simp only [if_pos h]
    rw [if_neg (show ¬ (65 ≤ c + 32 ∧ c + 32 ≤ 90) by omega)]
  · simp only [if_neg h]

theorem isWs_charLower (c : Nat) : isWs (charLower c) = isWs c := by
  by_cases h : 65 ≤ c ∧ c ≤ 90
  · have hc : charLower c = c + 32 := if_pos h
    have l : isWs (c + 32) = false := by
      simp only [isWs, Bool.or_eq_false_iff, decide_eq_false_iff_not]; omega
    have r : isWs c = false := by
      simp only [isWs, Bool.or_eq_false_iff, decide_eq_false_iff_not]; omega
    rw [hc, l, r]
  · rw [show charLower c = c from if_neg h]

theorem pyLower_idem (s : PyStr) : pyLower (pyLower s) = pyLower s := by
  unfold pyLower
  rw [List.map_map]
  exact List.map_congr_left (fun c _ => charLower_idem c)

theorem dropWhile_map {α β : Type} (f : α → β) (p : β → Bool) (q : α → Bool)
    (hpq : ∀ a, p (f a) = q a) (l : List α) :
    (l.map f).dropWhile p = (l.dropWhile q).map f := by
  induction l with
  | nil => rfl
  | cons a t ih =>
    simp only [List.map_cons, List.dropWhile_cons, hpq a]
    by_cases h : q a = true
    · simp [h, ih]
    · simp [h]

theorem pyStrip_pyLower (s : PyStr) : pyStrip (pyLower s) = pyLower (pyStrip s) := by
  unfold pyStrip pyLower
  rw [dropWhile_map charLower isWs isWs isWs_charLower s, ← List.map_reverse,
    dropWhile_map charLower isWs isWs isWs_charLower, ← List.map_reverse]

theorem dropWhile_dropWhile {α : Type} (p : α → Bool) (l : List α) :
    (l.dropWhile p).dropWhile p = l.dropWhile p := by
  induction l with
  | nil => rfl
  | cons a t ih =>
    by_cases h : p a = true
    · simp [List.dropWhile_cons, h, ih]
    · simp [List.dropWhile_cons, h]

theorem head?_dropWhile {α : Type} (p : α → Bool) (l : List α) {a : α}
    (h : (l.dropWhile p).head? = some a) : p a = false := by
  induction l with
  | nil => simp at h
  | cons b t ih =>
    by_cases hb : p b = true
    · rw [List.dropWhile_cons, if_pos hb] at h; exact ih h
    · rw [List.dropWhile_cons, if_neg hb] at h
      simp only [List.head?_cons, Option.some.injEq] at h
      rw [← h]; exact Bool.eq_false_iff.mpr hb

theorem dropWhile_ne_nil_of_ne {α : Type} (p : α → Bool) (l : List α)
    (h : l.dropWhile p ≠ []) : l ≠ [] := by
  intro he; rw [he] at h; exact h rfl

theorem getLast?_dropWhile {α : Type} (p : α → Bool) (l : List α)
    (h : l.dropWhile p ≠ []) : (l.dropWhile p).getLast? = l.getLast? := by
  induction l with
  | nil => simp at h
  | cons b t ih =>
    by_cases hb : p b = true
    · rw [List.dropWhile_cons, if_pos hb] at h ⊢
      rw [ih h]
      have ht : t ≠ [] := dropWhile_ne_nil_of_ne p t h
      cases t with
      | nil => exact absurd rfl ht
      | cons c u => rw [List.getLast?_cons_cons]
    · rw [List.dropWhile_cons, if_neg hb]

theorem dropWhile_eq_self_of_head? {α : Type} (p : α → Bool) (l : List α)
    (h : ∀ a, l.head? = some a → p a = false) : l.dropWhile p = l := by
  cases l with
  | nil => rfl
  | cons a t =>
    have := h a rfl
    simp [List.dropWhile_cons, this]

theorem pyStrip_idem (s : PyStr) : pyStrip (pyStrip s) = pyStrip s := by
  unfold pyStrip
  set v : PyStr := (s.dropWhile isWs).reverse with hv
  set t : PyStr := (v.dropWhile isWs).reverse with ht
  have hfront : t.dropWhile isWs = t := by
    apply dropWhile_eq_self_of_head?
    intro a ha
    rw [ht, List.head?_reverse] at ha
    have hne : v.dropWhile isWs ≠ [] := by
      intro he; rw [he] at ha; simp at ha
    rw [getLast?_dropWhile isWs v hne] at ha
    rw [hv, List.getLast?_reverse] at ha
    exact head?_dropWhile isWs s ha
  rw [hfront, ht, List.reverse_reverse, dropWhile_dropWhile]

theorem pyNorm_idem (s : PyStr) :
    pyLower (pyStrip (pyLower (pyStrip s))) = pyLower (pyStrip s) := by
  rw [pyStrip_pyLower, pyLower_idem, pyStrip_idem]

theorem perm_insertBy {α : Type} (le : α → α → Bool) (a : α) (l : List α) :
    (insertBy le a l).Perm (a :: l) := by
  induction l with
  | nil => exact List.Perm.refl _
  | cons b t ih =>
    rw [insertBy]
    by_cases hc : le a b = true
    · rw [if_pos hc]
    · rw [if_neg hc]
      exact ((ih.cons b).trans (List.Perm.swap a b t))

theorem mem_insertBy {α : Type} (le : α → α → Bool) (a x : α) (l : List α)
    (h : x ∈ insertBy le a l) : x = a ∨ x ∈ l :=
  List.mem_cons.mp ((perm_insertBy le a l).mem_iff.mp h)

theorem perm_sortBy {α : Type} (le : α → α → Bool) (l : List α) :
    (sortBy le l).Perm l := by
  induction l with
  | nil => exact List.Perm.refl _
  | cons a t ih =>
    exact (perm_insertBy le a (sortBy le t)).trans (ih.cons a)

theorem pairwise_insertBy {α : Type} (le : α → α → Bool)
    (htot : ∀ a b, le a b = true ∨ le b a = true)
    (htrans : ∀ a b c, le a b = true → le b c = true → le a c = true)
    (a : α) (l : List α) (h : l.Pairwise (fun x y => le x y = true)) :
    (insertBy le a l).Pairwise (fun x y => le x y = true) := by
  induction l with
  | nil => simp [insertBy]
  | cons b t ih =>
    rw [insertBy]
    obtain ⟨hb, ht⟩ := List.pairwise_cons.mp h
    by_cases hc : le a b = true
    · rw [if_pos hc]
      refine List.Pairwise.cons ?_ (List.Pairwise.cons hb ht)
      intro x hx
      rcases List.mem_cons.mp hx with hx | hx
      · subst hx; exact hc
      · exact htrans a b x hc (hb x hx)
    · rw [if_neg hc]
      refine List.Pairwise.cons ?_ (ih ht)
      intro x hx
      rcases mem_insertBy le a x t hx with h1 | h1
      · rcases htot a b with h2 | h2
        · exact absurd h2 hc
        · rw [h1]; exact h2
      · exact hb x h1

theorem pairwise_sortBy {α : Type} (le : α → α → Bool)
    (htot : ∀ a b, le a b = true ∨ le b a = true)
    (htrans : ∀ a b c, le a b = true → le b c = true → le a c = true)
    (l : List α) : (sortBy le l).Pairwise (fun x y => le x y = true) := by
  induction l with
  | nil => simp [sortBy]
  | cons a t ih => exact pairwise_insertBy le htot htrans a (sortBy le t) ih

theorem mem_dropDupKeysAux {α κ : Type} [DecidableEq κ] (f : α → κ)
    (seen : List κ) (l : List α) (x : α) (h : x ∈ dropDupKeysAux f seen l) :
    x ∈ l := by
  induction l generalizing seen with
  | nil => simp [dropDupKeysAux] at h
  | cons a t ih =>
    rw [dropDupKeysAux] at h
    by_cases hc : f a ∈ seen
    · rw [if_pos hc] at h
      exact List.mem_cons_of_mem a (ih seen h)
    · rw [if_neg hc] at h
      rcases List.mem_cons.mp h with h1 | h1
      · rw [h1]; exact List.mem_cons_self a t
      · exact List.mem_cons_of_mem a (ih _ h1)

theorem key_dropDupKeysAux_notin {α κ : Type} [DecidableEq κ] (f : α → κ)
    (seen : List κ) (l : List α) (x : α) (h : x ∈ dropDupKeysAux f seen l) :
    f x ∉ seen := by
  induction l generalizing seen with
  | nil => simp [dropDupKeysAux] at h
  | cons a t ih =>
    rw [dropDupKeysAux] at h
    by_cases hc : f a ∈ seen
    · rw [if_pos hc] at h
      exact ih seen h
    · rw [if_neg hc] at h
      rcases List.mem_cons.mp h with h1 | h1
      · rw [h1]; exact hc
      · intro hx
        exact ih _ h1 (List.mem_cons_of_mem _ hx)

theorem pairwise_dropDupKeysAux {α κ : Type} [DecidableEq κ] (f : α → κ)
    (seen : List κ) (l : List α) :
    (dropDupKeysAux f seen l).Pairwise (fun a b => f a ≠ f b) := by
  induction l generalizing seen with
  | nil => simp [dropDupKeysAux]
  | cons a t ih =>
    rw [dropDupKeysAux]
    by_cases hc : f a ∈ seen
    · rw [if_pos hc]; exact ih seen
    · rw [if_neg hc]
      refine List.Pairwise.cons ?_ (ih _)
      intro x hx
      have := key_dropDupKeysAux_notin f _ t x hx
      intro he
      exact this (he ▸ List.mem_cons_self (f a) seen)

theorem dropDupKeysAux_sublist {α κ : Type} [DecidableEq κ] (f : α → κ)
    (seen : List κ) (l : List α) : (dropDupKeysAux f seen l).Sublist l := by
  induction l generalizing seen with
  | nil => simp [dropDupKeysAux]
  | cons a t ih =>
    rw [dropDupKeysAux]
    by_cases hc : f a ∈ seen
    · rw [if_pos hc]
      exact (ih seen).trans (List.sublist_cons_self a t)
    · rw [if_neg hc]
      exact (ih _).cons₂ a

theorem dropDupKeysAux_congr_seen {α κ : Type} [DecidableEq κ] (f : α → κ)
    (s₁ s₂ : List κ) (l : List α) (h : ∀ x ∈ l, f x ∈ s₁ ↔ f x ∈ s₂) :
    dropDupKeysAux f s₁ l = dropDupKeysAux f s₂ l := by
  induction l generalizing s₁ s₂ with
  | nil => rfl
  | cons a t ih =>
    rw [dropDupKeysAux, dropDupKeysAux]
    by_cases hc : f a ∈ s₁
    · rw [if_pos hc, if_pos ((h a (List.mem_cons_self a t)).mp hc)]
      exact ih s₁ s₂ (fun x hx => h x (List.mem_cons_of_mem a hx))
    · rw [if_neg hc, if_neg (fun h2 => hc ((h a (List.mem_cons_self a t)).mpr h2))]
      refine congrArg (a :: ·) (ih _ _ ?_)
      intro x hx
      constructor
      · intro hm
        rcases List.mem_cons.mp hm with h1 | h1
        · exact h1 ▸ List.mem_cons_self _ _
        · exact List.mem_cons_of_mem _ ((h x (List.mem_cons_of_mem a hx)).mp h1)
      · intro hm
        rcases List.mem_cons.mp hm with h1 | h1
        · exact h1 ▸ List.mem_cons_self _ _
        · exact List.mem_cons_of_mem _ ((h x (List.mem_cons_of_mem a hx)).mpr h1)

theorem dropDupKeysAux_append_seen {α κ : Type} [DecidableEq κ] (f : α → κ)
    (seen : List κ) (T D : List α) (h : ∀ x ∈ T, f x ∈ seen) :
    dropDupKeysAux f seen (T ++ D) = dropDupKeysAux f seen D := by
  induction T with
  | nil => rfl
  | cons a t ih =>
    rw [List.cons_append, dropDupKeysAux,
      if_pos (h a (List.mem_cons_self a t))]
    exact ih (fun x hx => h x (List.mem_cons_of_mem a hx))

theorem zeroNonFirst_congr_seen {κ ρ : Type} [DecidableEq κ]
    (s₁ s₂ : List κ) (l : List (LRow κ ρ)) (h : ∀ x ∈ l, x.key ∈ s₁ ↔ x.key ∈ s₂) :
    zeroNonFirst s₁ l = zeroNonFirst s₂ l := by
  induction l generalizing s₁ s₂ with
  | nil => rfl
  | cons a t ih =>
    rw [zeroNonFirst, zeroNonFirst]
    by_cases hc : a.key ∈ s₁
    · rw [if_pos hc, if_pos ((h a (List.mem_cons_self a t)).mp hc)]
      exact congrArg _ (ih s₁ s₂ (fun x hx => h x (List.mem_cons_of_mem a hx)))
    · rw [if_neg hc, if_neg (fun h2 => hc ((h a (List.mem_cons_self a t)).mpr h2))]
      refine congrArg (a :: ·) (ih _ _ ?_)
      intro x hx
      constructor
      · intro hm
        rcases List.mem_cons.mp hm with h1 | h1
        · exact h1 ▸ List.mem_cons_self _ _
        · exact List.mem_cons_of_mem _ ((h x (List.mem_cons_of_mem a hx)).mp h1)
      · intro hm
        rcases List.mem_cons.mp hm with h1 | h1
        · exact h1 ▸ List.mem_cons_self _ _
        · exact List.mem_cons_of_mem _ ((h x (List.mem_cons_of_mem a hx)).mpr h1)

theorem zeroNonFirst_append_seen {κ ρ : Type} [DecidableEq κ]
    (seen : List κ) (T D : List (LRow κ ρ)) (h : ∀ x ∈ T, x.key ∈ seen) :
    zeroNonFirst seen (T ++ D)
      = T.map (fun x => { x with total := 0 }) ++ zeroNonFirst seen D := by
  induction T with
  | nil => rfl
  | cons a t ih =>
    rw [List.cons_append, zeroNonFirst, if_pos (h a (List.mem_cons_self a t)),
      List.map_cons, List.cons_append]
    exact congrArg _ (ih (fun x hx => h x (List.mem_cons_of_mem a hx)))

theorem Grouped.sublist {α κ : Type} {key : α → κ} {l l' : List α}
    (hs : l'.Sublist l) (h : Grouped key l) : Grouped key l' :=
  fun a b c ht he => h a b c (ht.trans hs) he

theorem grouped_dropWhile_ne {α κ : Type} [DecidableEq κ] (key : α → κ)
    (a : α) (rest : List α) (h : Grouped key (a :: rest)) :
    ∀ x ∈ rest.dropWhile (fun b => decide (key b = key a)), key x ≠ key a := by
  induction rest with
  | nil => intro x hx; simp at hx
  | cons r rs ih =>
    intro x hx
    by_cases hr : key r = key a
    · rw [List.dropWhile_cons, if_pos (by simpa using hr)] at hx
      have hsub : (a :: rs).Sublist (a :: r :: rs) :=
        (List.sublist_cons_self r rs).cons₂ a
      exact ih (h.sublist hsub) x hx
    · rw [List.dropWhile_cons, if_neg (by simpa using hr)] at hx
      rcases List.mem_cons.mp hx with h1 | h1
      · rw [h1]; exact hr
      · intro he
        refine hr (h a r x ?_ he.symm)
        exact ((List.singleton_sublist.mpr h1).cons₂ r).cons₂ a

theorem filter_eq_of_all {α : Type} (p : α → Bool) (l : List α)
    (h : ∀ x ∈ l, p x = true) : l.filter p = l :=
  List.filter_eq_self.mpr h

theorem filter_eq_nil_of_none {α : Type} (p : α → Bool) (l : List α)
    (h : ∀ x ∈ l, p x = false) : l.filter p = [] :=
  List.filter_eq_nil_iff.mpr (fun a ha => by rw [h a ha]; exact Bool.false_ne_true)

theorem flatMap_congr_mem {α β : Type} (l : List α) (f g : α → List β)
    (h : ∀ a ∈ l, f a = g a) : l.flatMap f = l.flatMap g := by
  induction l with
  | nil => rfl
  | cons a t ih =>
    rw [List.flatMap_cons, List.flatMap_cons, h a (List.mem_cons_self a t),
      ih (fun x hx => h x (List.mem_cons_of_mem a hx))]

theorem groupApply_clear_eq_zeroNonFirst {κ ρ : Type} [DecidableEq κ] [DecidableEq ρ] :
    ∀ (n : Nat) (l : List (LRow κ ρ)), l.length ≤ n → Grouped LRow.key l →
      groupApply clear_lumpsums LRow.key l = zeroNonFirst [] l := by
  intro n
  induction n with
  | zero =>
    intro l hl _
    rw [Nat.le_zero, List.length_eq_zero] at hl
    rw [hl]; rfl
  | succ n ih =>
    intro l hl hg
    cases l with
    | nil => rfl
    | cons a rest =>
      set p : LRow κ ρ → Bool := fun b => decide (b.key = a.key) with hp
      set T := rest.takeWhile p with hTdef
      set D := rest.dropWhile p with hDdef
      have hTD : T ++ D = rest := List.takeWhile_append_dropWhile p rest
      have hT : ∀ x ∈ T, x.key = a.key := by
        intro x hx
        have := List.mem_takeWhile_imp hx
        simpa [hp] using this
      have hD : ∀ x ∈ D, x.key ≠ a.key := grouped_dropWhile_ne LRow.key a rest hg
      have hDsub : D.Sublist rest := List.dropWhile_sublist p
      have hDlen : D.length ≤ n := by
        have h1 : D.length ≤ rest.length := hDsub.length_le
        have h2 : rest.length ≤ n := by simpa using Nat.le_of_succ_le_succ hl
        exact h1.trans h2
      have hDg : Grouped LRow.key D :=
        hg.sublist (hDsub.trans (List.sublist_cons_self a rest))
      -- left side
      have hreps : dropDupKeysAux LRow.key [] (a :: rest)
          = a :: dropDupKeysAux LRow.key [] D := by
        rw [dropDupKeysAux, if_neg (List.not_mem_nil a.key)]
        refine congrArg (a :: ·) ?_
        rw [← hTD, dropDupKeysAux_append_seen LRow.key [a.key] T D
          (fun x hx => by rw [hT x hx]; exact List.mem_cons_self _ _)]
        exact dropDupKeysAux_congr_seen LRow.key [a.key] [] D
          (fun x hx => by simp [hD x hx])
      have hheadfilter : (a :: rest).filter (fun b => decide (b.key = a.key))
          = a :: T := by
        rw [List.filter_cons, if_pos (by simp)]
        refine congrArg (a :: ·) ?_
        rw [← hTD, List.filter_append,
          filter_eq_of_all _ T (fun x hx => by simp [hT x hx]),
          filter_eq_nil_of_none _ D (fun x hx => by simp [hD x hx]),
          List.append_nil]
      have htailfilter : ∀ b ∈ dropDupKeysAux LRow.key [] D,
          (a :: rest).filter (fun x => decide (x.key = b.key))
            = D.filter (fun x => decide (x.key = b.key)) := by
        intro b hb
        have hbD : b ∈ D := mem_dropDupKeysAux _ _ _ _ hb
        have hbk : b.key ≠ a.key := hD b hbD
        rw [List.filter_cons,
          if_neg (by simp only [decide_eq_true_eq]; exact fun h => hbk h.symm),
          ← hTD, List.filter_append,
          filter_eq_nil_of_none _ T (fun x hx => by
            simp only [decide_eq_false_iff_not]
            rw [hT x hx]
            exact fun h => hbk h.symm),
          List.nil_append]
      have hleft : groupApply clear_lumpsums LRow.key (a :: rest)
          = (a :: T.map (fun x => { x with total := 0 }))
            ++ groupApply clear_lumpsums LRow.key D := by
        rw [groupApply, hreps, List.flatMap_cons, hheadfilter]
        refine congrArg₂ (· ++ ·) rfl ?_
        rw [groupApply]
        exact flatMap_congr_mem _ _ _
          (fun b hb => congrArg clear_lumpsums (htailfilter b hb))
      have hright : zeroNonFirst [] (a :: rest)
          = a :: (T.map (fun x => { x with total := 0 })
              ++ zeroNonFirst [] D) := by
        rw [zeroNonFirst, if_neg (List.not_mem_nil a.key), ← hTD,
          zeroNonFirst_append_seen [a.key] T D
            (fun x hx => by rw [hT x hx]; exact List.mem_cons_self _ _),
          zeroNonFirst_congr_seen [a.key] [] D (fun x hx => by simp [hD x hx])]
      rw [hleft, hright, ih D hDlen hDg, List.cons_append]
theorem grouped_sortBy {κ ρ : Type} [LinearOrder κ] (df : List (LRow κ ρ)) :
    Grouped LRow.key (sortBy (fun a b : LRow κ ρ => decide (a.key ≤ b.key)) df) := by
  have hp := pairwise_sortBy (fun a b : LRow κ ρ => decide (a.key ≤ b.key))
    (fun a b => by
      rcases le_total a.key b.key with h | h
      · exact Or.inl (by simpa using h)
      · exact Or.inr (by simpa using h))
    (fun a b c h1 h2 => by
      simp only [decide_eq_true_eq] at h1 h2 ⊢
      exact le_trans h1 h2) df
  intro a b c hsub he
  have hp3 := List.Pairwise.sublist hsub hp
  obtain ⟨hab, hp2⟩ := List.pairwise_cons.mp hp3
  obtain ⟨hbc, _⟩ := List.pairwise_cons.mp hp2
  have h1 : a.key ≤ b.key := by
    simpa using hab b (List.mem_cons_self b [c])
  have h2 : b.key ≤ c.key := by
    simpa using hbc c (List.mem_cons_self c [])
  exact le_antisymm (he ▸ h2) h1

theorem sum_filter_add {α : Type} (p : α → Bool) (f : α → ℚ) (l : List α) :
    ((l.filter p).map f).sum + ((l.filter (fun x => !p x)).map f).sum
      = (l.map f).sum := by
  induction l with
  | nil => simp
  | cons a t ih =>
    by_cases h : p a = true
    · rw [List.filter_cons, if_pos h, List.filter_cons, if_neg (by simp [h]),
        List.map_cons, List.sum_cons, List.map_cons, List.sum_cons, add_assoc, ih]
    · rw [List.filter_cons, if_neg h, List.filter_cons,
        if_pos (by simp [Bool.eq_false_iff.mpr h]),
        List.map_cons, List.sum_cons, List.map_cons, List.sum_cons,
        add_left_comm, ih]

theorem sumTotal_nonneg {κ ρ : Type} (l : List (LRow κ ρ))
    (hnn : ∀ x ∈ l, 0 ≤ x.total) : 0 ≤ sumTotal l := by
  refine List.sum_nonneg ?_
  intro y hy
  obtain ⟨x, hx, rfl⟩ := List.mem_map.mp hy
  exact hnn x hx

theorem sumTotal_append {κ ρ : Type} (l₁ l₂ : List (LRow κ ρ)) :
    sumTotal (l₁ ++ l₂) = sumTotal l₁ + sumTotal l₂ := by
  unfold sumTotal
  rw [List.map_append, List.sum_append]

theorem sumTotal_reps_le {κ ρ : Type} [DecidableEq κ]
    (reps l : List (LRow κ ρ))
    (hreps : reps.Pairwise (fun a b : LRow κ ρ => a.key ≠ b.key))
    (hnn : ∀ x ∈ l, 0 ≤ x.total) :
    (reps.map (fun b => sumTotal (l.filter (fun x => decide (x.key = b.key))))).sum
      ≤ sumTotal l := by
  induction reps generalizing l with
  | nil => simpa using sumTotal_nonneg l hnn
  | cons b reps ih =>
    rw [List.map_cons, List.sum_cons]
    obtain ⟨hb, hreps2⟩ := List.pairwise_cons.mp hreps
    have hsplit := sum_filter_add (fun x : LRow κ ρ => decide (x.key = b.key))
      LRow.total l
    have hkey : (reps.map (fun c =>
          sumTotal (l.filter (fun x => decide (x.key = c.key))))).sum
        = (reps.map (fun c => sumTotal
            ((l.filter (fun x => !decide (x.key = b.key))).filter
              (fun x => decide (x.key = c.key))))).sum := by
      refine congrArg List.sum (List.map_congr_left ?_)
      intro c hc
      have hcb : b.key ≠ c.key := hb c hc
      rw [List.filter_filter]
      refine congrArg sumTotal (List.filter_congr ?_).symm
      intro x _
      by_cases hx : x.key = c.key
      · have hxb : decide (x.key = b.key) = false := by
          simp only [decide_eq_false_iff_not]
          rw [hx]; exact fun h => hcb h.symm
        simp [hx, hxb]
        exact fun h => hcb h.symm
      · simp [hx]
    have hfnn : ∀ x ∈ l.filter (fun x : LRow κ ρ => !decide (x.key = b.key)),
        0 ≤ x.total := fun x hx => hnn x (List.mem_filter.mp hx).1
    calc sumTotal (l.filter (fun x => decide (x.key = b.key)))
          + (reps.map (fun c =>
              sumTotal (l.filter (fun x => decide (x.key = c.key))))).sum
        = sumTotal (l.filter (fun x => decide (x.key = b.key)))
          + (reps.map (fun c => sumTotal
              ((l.filter (fun x => !decide (x.key = b.key))).filter
                (fun x => decide (x.key = c.key))))).sum := by rw [hkey]
      _ ≤ sumTotal (l.filter (fun x => decide (x.key = b.key)))
          + sumTotal (l.filter (fun x => !decide (x.key = b.key))) :=
            add_le_add_left (ih _ hreps2 hfnn) _
      _ = sumTotal l := hsplit

theorem sumTotal_clear_le {κ ρ : Type} (g : List (LRow κ ρ))
    (hnn : ∀ x ∈ g, 0 ≤ x.total) :
    sumTotal (clear_lumpsums g) ≤ sumTotal g := by
  cases g with
  | nil => exact le_refl _
  | cons r t =>
    rw [clear_lumpsums]
    unfold sumTotal
    rw [List.map_cons, List.sum_cons, List.map_cons, List.sum_cons, List.map_map]
    refine add_le_add_left ?_ _
    refine List.sum_le_sum ?_
    intro x hx
    exact hnn x (List.mem_cons_of_mem r hx)

theorem sumTotal_flatMap {α κ ρ : Type} (g : α → List (LRow κ ρ)) (reps : List α) :
    sumTotal (reps.flatMap g) = (reps.map (fun b => sumTotal (g b))).sum := by
  induction reps with
  | nil => rfl
  | cons b t ih =>
    rw [List.flatMap_cons, sumTotal_append, List.map_cons, List.sum_cons, ih]

theorem mem_clear_lumpsums {κ ρ : Type} (g : List (LRow κ ρ)) (x : LRow κ ρ)
    (h : x ∈ clear_lumpsums g) : x ∈ g ∨ x.total = 0 := by
  cases g with
  | nil => simp [clear_lumpsums] at h
  | cons r t =>
    rw [clear_lumpsums] at h
    rcases List.mem_cons.mp h with h1 | h1
    · exact Or.inl (h1 ▸ List.mem_cons_self r t)
    · obtain ⟨y, _, rfl⟩ := List.mem_map.mp h1
      exact Or.inr rfl

theorem groupApply_clear_nonneg {κ ρ : Type} [DecidableEq κ]
    (l : List (LRow κ ρ)) (hnn : ∀ x ∈ l, 0 ≤ x.total) :
    ∀ x ∈ groupApply clear_lumpsums LRow.key l, 0 ≤ x.total := by
  intro x hx
  rw [groupApply] at hx
  obtain ⟨b, _, hxb⟩ := List.mem_flatMap.mp hx
  rcases mem_clear_lumpsums _ x hxb with h1 | h1
  · exact hnn x (List.mem_filter.mp h1).1
  · rw [h1]

theorem groupApply_clear_sum_le {κ ρ : Type} [DecidableEq κ]
    (l : List (LRow κ ρ)) (hnn : ∀ x ∈ l, 0 ≤ x.total) :
    sumTotal (groupApply clear_lumpsums LRow.key l) ≤ sumTotal l := by
  rw [groupApply, sumTotal_flatMap]
  calc ((dropDupKeysAux LRow.key [] l).map (fun b =>
          sumTotal (clear_lumpsums (l.filter (fun x => decide (x.key = b.key)))))).sum
      ≤ ((dropDupKeysAux LRow.key [] l).map (fun b =>
          sumTotal (l.filter (fun x => decide (x.key = b.key))))).sum := by
        refine List.sum_le_sum ?_
        intro b _
        exact sumTotal_clear_le _
          (fun x hx => hnn x (List.mem_filter.mp hx).1)
    _ ≤ sumTotal l :=
        sumTotal_reps_le _ l (pairwise_dropDupKeysAux LRow.key [] l) hnn

theorem sublist_sumTotal_le {κ ρ : Type} {l' l : List (LRow κ ρ)}
    (hs : l'.Sublist l) (hnn : ∀ x ∈ l, 0 ≤ x.total) :
    sumTotal l' ≤ sumTotal l := by
  induction hs with
  | slnil => exact le_refl _
  | @cons l₁ l₂ a h ih =>
    have : sumTotal l₂ ≤ sumTotal (a :: l₂) := by
      unfold sumTotal
      rw [List.map_cons, List.sum_cons]
      have := hnn a (List.mem_cons_self a l₂)
      linarith
    exact le_trans (ih (fun x hx => hnn x (List.mem_cons_of_mem a hx))) this
  | @cons₂ l₁ l₂ a h ih =>
    unfold sumTotal
    rw [List.map_cons, List.sum_cons, List.map_cons, List.sum_cons]
    exact add_le_add_left (ih (fun x hx => hnn x (List.mem_cons_of_mem a hx))) _

/-- The explicit `abs` of the source agrees with the mathematical one. -/
theorem pyAbs_eq (q : ℚ) : pyAbs q = |q| := by
  unfold pyAbs
  split_ifs with h
  · exact (abs_of_neg h).symm
  · exact (abs_of_nonneg (not_lt.mp h)).symm

/-- C2: the consistency check compares the sum of all `BoxTotal` amounts
with the sum of the four consolidated amount columns over the matched rows;
a difference above the fixed tolerance 0.01 stops the run with a mismatch
carrying both sums and no export, a difference within 0.01 lets processing
continue.  In particular box sum 500.00 against consolidated 500.004 passes
and against 500.02 fails. -/
theorem C2_consistency_check :
    (∀ (bts : List BoxTotalRow) (cons : List ConsolidatedRow),
      (consolidated_sum_check bts cons
          = Except.error (sum_preorders bts, sum_consolidated (box_merge bts cons))
        ↔ 1/100 < |sum_preorders bts - sum_consolidated (box_merge bts cons)|)
      ∧ ((consolidated_sum_check bts cons).isOk = true
        ↔ |sum_preorders bts - sum_consolidated (box_merge bts cons)| ≤ 1/100))
    ∧ (consolidated_sum_check
        [⟨[98], [102], 500⟩] [⟨[98], [102], 500.004, 0, 0, 0⟩]).isOk = true
    ∧ consolidated_sum_check
        [⟨[98], [102], 500⟩] [⟨[98], [102], 500.02, 0, 0, 0⟩]
      = Except.error (500, 500.02) := by
  have hmerge : ∀ q : ℚ, box_merge [⟨[98], [102], 500⟩] [⟨[98], [102], q, 0, 0, 0⟩]
      = [⟨[98], [102], 500, some q, some 0, some 0, some 0⟩] := fun q => by
    simp [box_merge, List.filter]
  have hsp : sum_preorders [⟨[98], [102], 500⟩] = 500 := by
    simp [sum_preorders]
  have hsc : ∀ q : ℚ,
      sum_consolidated [⟨[98], [102], 500, some q, some 0, some 0, some 0⟩] = q := by
    intro q
    simp [sum_consolidated]
  refine ⟨?_, ?_, ?_⟩
  · intro bts cons
    simp only [consolidated_sum_check, pyAbs_eq]
    split_ifs with h
    · refine ⟨⟨fun _ => h, fun _ => rfl⟩, ?_⟩
      constructor
      · intro hok
        simp [Except.isOk, Except.toBool] at hok
      · intro hle
        exact absurd h (not_lt.mpr hle)
    · constructor
      · constructor
        · intro he
          simp at he
        · intro hlt
          exact absurd hlt h
      · exact ⟨fun _ => not_lt.mp h, fun _ => rfl⟩
  · simp only [consolidated_sum_check, hmerge 500.004, hsp, hsc 500.004]
    rw [if_neg (by rw [pyAbs_eq]; rw [abs_sub_comm]; rw [abs_of_nonneg (by norm_num)]; norm_num)]
    rfl
  · simp only [consolidated_sum_check, hmerge 500.02, hsp, hsc 500.02]
    rw [if_pos (by rw [pyAbs_eq]; rw [abs_sub_comm]; rw [abs_of_nonneg (by norm_num)]; norm_num)]

/-- C6: a normalized order record whose `(location, event, date)` key is
absent from the event lookup gets a null (`none`) event id from
`map_event_id`, and the record is retained, not dropped: it appears in the
assigned frame, and both the assignment and the subsequent integer
coercion preserve the row count. -/
theorem C6_unresolved_retained
    (event_map : PyStr × PyStr × Option Nat → Option Nat)
    (rows : List PreManualRow) (r : PreManualRow) (hr : r ∈ rows)
    (hu : event_map (pyStrip r.location, pyStrip r.event, r.eventDate) = none) :
    map_event_id event_map r = none
    ∧ (r, (none : Option Nat)) ∈ assign_event_ids event_map rows
    ∧ (assign_event_ids event_map rows).length = rows.length
    ∧ (coerce_event_ids (assign_event_ids event_map rows)).length = rows.length := by
  have h1 : map_event_id event_map r = none := hu
  refine ⟨h1, ?_, ?_, ?_⟩
  · have hmem : (r, map_event_id event_map r) ∈ assign_event_ids event_map rows :=
      List.mem_map.mpr ⟨r, hr, rfl⟩
    rw [h1] at hmem
    exact hmem
  · exact List.length_map rows _
  · unfold coerce_event_ids assign_event_ids
    rw [List.length_map, List.length_map]

/-- Witness for C6 at a concrete row and an empty lookup table. -/
theorem C6_unresolved_retained_witness :
    map_event_id (fun _ => none) ⟨pystr "box 1", pystr "final", none, 0⟩ = none
    ∧ ((⟨pystr "box 1", pystr "final", none, 0⟩ : PreManualRow), (none : Option Nat))
        ∈ assign_event_ids (fun _ => none) [⟨pystr "box 1", pystr "final", none, 0⟩]
    ∧ (assign_event_ids (fun _ => none)
        [(⟨pystr "box 1", pystr "final", none, 0⟩ : PreManualRow)]).length
      = [(⟨pystr "box 1", pystr "final", none, 0⟩ : PreManualRow)].length
    ∧ (coerce_event_ids (assign_event_ids (fun _ => none)
        [(⟨pystr "box 1", pystr "final", none, 0⟩ : PreManualRow)])).length
      = [(⟨pystr "box 1", pystr "final", none, 0⟩ : PreManualRow)].length :=
  C6_unresolved_retained (fun _ => none) _ _ (List.mem_cons_self _ _) rfl

/-- C8 counterexample: with event 2 answering HTTP 500 among events 1, 2, 3,
the batch is exactly the records of events 1 and 3 and contains nothing for
event 2, and the function emits no message at all — the failure is skipped
silently, not logged as the claim states. -/
theorem C8_counterexample :
    fetch_api_preorders respondEx [1, 2, 3] = [⟨1, 21⟩, ⟨3, 21⟩]
    ∧ (∀ c ∈ fetch_api_preorders respondEx [1, 2, 3], c.eventId ≠ 2)
    ∧ fetch_api_preorders_messages respondEx [1, 2, 3] = [] := by
  refine ⟨by decide, by decide, rfl⟩

/-- C8 (amended): an event whose call returns a non-200 status has its data
omitted from the batch, every 200 event's records are all kept (the
pipeline continues with the partial data), each listed event is requested
exactly once (no retry — the loop body issues one GET per id), and the
failure is skipped silently: the function emits no message. -/
theorem C8_amended_partial_fetch
    (respond : Nat → ApiResponse) (event_ids : List Nat)
    (htag : ∀ e, ∀ c ∈ (respond e).caterings, c.eventId = e)
    (e : Nat) (hfail : (respond e).status ≠ 200) :
    (∀ c ∈ fetch_api_preorders respond event_ids, c.eventId ≠ e)
    ∧ (∀ e2 ∈ event_ids, (respond e2).status = 200 →
        ∀ c ∈ (respond e2).caterings, c ∈ fetch_api_preorders respond event_ids)
    ∧ fetch_api_preorders_messages respond event_ids = [] := by
  refine ⟨?_, ?_, rfl⟩
  · intro c hc
    rw [fetch_api_preorders] at hc
    obtain ⟨eid, _, hcc⟩ := List.mem_flatMap.mp hc
    by_cases hs : (respond eid).status = 200
    · rw [if_pos hs] at hcc
      rw [htag eid c hcc]
      intro he
      rw [he] at hs
      exact hfail hs
    · rw [if_neg hs] at hcc
      simp at hcc
  · intro e2 he2 hs c hc
    rw [fetch_api_preorders]
    exact List.mem_flatMap.mpr ⟨e2, he2, by rw [if_pos hs]; exact hc⟩

/-- Witness for C8 (amended), at the concrete responses with event 2 failing. -/
theorem C8_amended_partial_fetch_witness :
    (∀ c ∈ fetch_api_preorders respondEx [1, 2, 3], c.eventId ≠ 2)
    ∧ (∀ e2 ∈ [1, 2, 3], (respondEx e2).status = 200 →
        ∀ c ∈ (respondEx e2).caterings, c ∈ fetch_api_preorders respondEx [1, 2, 3])
    ∧ fetch_api_preorders_messages respondEx [1, 2, 3] = [] :=
  C8_amended_partial_fetch respondEx [1, 2, 3]
    (by
      intro e c hc
      unfold respondEx at hc
      split_ifs at hc <;> (rw [List.mem_singleton] at hc; rw [hc]))
    2 (by decide)

/-- The range of `assign_payment_status`. -/
theorem assign_payment_status_range (r : BoxMergedRow) :
    assign_payment_status r = "Drawdown" ∨ assign_payment_status r = "Credit Card"
    ∨ assign_payment_status r = "Purchase Order" ∨ assign_payment_status r = "EFT"
    ∨ assign_payment_status r = "" := by
  simp only [assign_payment_status]
  split_ifs <;> simp

/-- C9: for the payment types `assign_payment_status` can produce, the
derived `ConsolidatedPaymentStatus` is "Completed" exactly for "Credit
Card" or "EFT", "Pending" exactly for "Drawdown", and empty otherwise; in
particular the type "Purchase Order" gets the empty status, because the
derivation's list uses the plural spelling "Purchase Orders". -/
theorem C9_consolidated_payment_status :
    (∀ r : BoxMergedRow,
      (consolidated_payment_status (assign_payment_status r) = "Completed"
        ↔ (assign_payment_status r = "Credit Card" ∨ assign_payment_status r = "EFT"))
      ∧ (consolidated_payment_status (assign_payment_status r) = "Pending"
        ↔ assign_payment_status r = "Drawdown")
      ∧ (consolidated_payment_status (assign_payment_status r) = ""
        ↔ (assign_payment_status r = "Purchase Order" ∨ assign_payment_status r = "")))
    ∧ consolidated_payment_status "Purchase Order" = "" := by
  refine ⟨?_, by decide⟩
  intro r
  rcases assign_payment_status_range r with h | h | h | h | h <;> rw [h] <;>
    exact ⟨by decide, by decide, by decide⟩

/-- C10: for every uploaded consolidated file and every selection with a
valid date, the fixture-match verification passes and its error branch is
unreachable: preprocessing keeps only `Location` and the four amount
columns, so `Event`/`EventDate` are injected from the selection and the
mask compares the selection with itself. -/
theorem C10_fixture_check_passes :
    (∀ (dfc : List ConsPayRow) (selEvent : PyStr) (selDate : Nat),
      fixture_match_check dfc selEvent selDate
        = Except.ok (inject_fixture dfc selEvent selDate))
    ∧ ∀ (ρ : Type) (raw : List (RawConsRow ρ)) (selEvent : PyStr) (selDate : Nat),
      fixture_match_check (preprocess_consolidated_payment_report raw) selEvent selDate
        = Except.ok (inject_fixture (preprocess_consolidated_payment_report raw)
            selEvent selDate) := by
  have main : ∀ (dfc : List ConsPayRow) (selEvent : PyStr) (selDate : Nat),
      fixture_match_check dfc selEvent selDate
        = Except.ok (inject_fixture dfc selEvent selDate) := by
    intro dfc selEvent selDate
    simp only [fixture_match_check]
    have hall : (inject_fixture dfc selEvent selDate).filter
        (fun r => decide (r.event = pyLower (pyStrip selEvent)
          ∧ r.eventDate = selDate))
        = inject_fixture dfc selEvent selDate := by
      apply filter_eq_of_all
      intro x hx
      rw [inject_fixture] at hx
      obtain ⟨r, _, rfl⟩ := List.mem_map.mp hx
      simp only [decide_eq_true_eq]
      exact ⟨pyNorm_idem selEvent, trivial⟩
    rw [hall, if_neg (fun h => h rfl)]
  exact ⟨main, fun ρ raw s d => main _ s d⟩

/-- `round2` is the identity on integer values. -/
theorem round2_int (n : ℤ) : round2 ((n : ℚ)) = (n : ℚ) := by
  have h1 : ((n : ℚ) * 100) = ((n * 100 : ℤ) : ℚ) := by push_cast; ring
  simp only [round2, h1, Int.floor_intCast, sub_self]
  rw [if_pos (by norm_num)]
  push_cast
  ring

theorem round2_zero : round2 0 = 0 := by
  have := round2_int 0
  push_cast at this
  exact this

theorem round2_hundred : round2 100 = 100 := by
  have := round2_int 100
  push_cast at this
  exact this

/-- C1 counterexample: on a row whose box total and amounts are all zero,
the first exact equality in priority order is Drawdown (0 = 0), so the
claim's rule says "Drawdown", but `assign_payment_status` — which also
requires the matched amount to be strictly positive — returns the empty
status.  The claim's rule, as stated, disagrees with the code. -/
theorem C1_counterexample :
    assign_payment_status zeroPayRow = ""
    ∧ assign_payment_status_claim zeroPayRow = "Drawdown"
    ∧ assign_payment_status zeroPayRow ≠ assign_payment_status_claim zeroPayRow := by
  have h1 : assign_payment_status zeroPayRow = "" := by
    simp [assign_payment_status, zeroPayRow, round2_zero]
  have h2 : assign_payment_status_claim zeroPayRow = "Drawdown" := by
    simp [assign_payment_status_claim, zeroPayRow, round2_zero]
  refine ⟨h1, h2, ?_⟩
  rw [h1, h2]
  decide

/-- C1 (amended): `assign_payment_status` rounds the box total and the four
amounts to two decimals and returns the first method, in the order
Drawdown, Credit Card, Purchase Order, EFT, whose rounded amount is
strictly positive and exactly equal to the rounded total, and the empty
status when no such method exists; the claim's two examples hold. -/
theorem C1_amended_payment_status :
    (∀ row : BoxMergedRow,
      (assign_payment_status row = "Drawdown"
        ↔ (0 < round2 (row.drawdown.getD 0)
            ∧ round2 row.boxTotal = round2 (row.drawdown.getD 0)))
      ∧ (assign_payment_status row = "Credit Card"
        ↔ ¬(0 < round2 (row.drawdown.getD 0)
              ∧ round2 row.boxTotal = round2 (row.drawdown.getD 0))
          ∧ (0 < round2 (row.creditCard.getD 0)
              ∧ round2 row.boxTotal = round2 (row.creditCard.getD 0)))
      ∧ (assign_payment_status row = "Purchase Order"
        ↔ ¬(0 < round2 (row.drawdown.getD 0)
              ∧ round2 row.boxTotal = round2 (row.drawdown.getD 0))
          ∧ ¬(0 < round2 (row.creditCard.getD 0)
              ∧ round2 row.boxTotal = round2 (row.creditCard.getD 0))
          ∧ (0 < round2 (row.purchaseOrders.getD 0)
              ∧ round2 row.boxTotal = round2 (row.purchaseOrders.getD 0)))
      ∧ (assign_payment_status row = "EFT"
        ↔ ¬(0 < round2 (row.drawdown.getD 0)
              ∧ round2 row.boxTotal = round2 (row.drawdown.getD 0))
          ∧ ¬(0 < round2 (row.creditCard.getD 0)
              ∧ round2 row.boxTotal = round2 (row.creditCard.getD 0))
          ∧ ¬(0 < round2 (row.purchaseOrders.getD 0)
              ∧ round2 row.boxTotal = round2 (row.purchaseOrders.getD 0))
          ∧ (0 < round2 (row.eft.getD 0)
              ∧ round2 row.boxTotal = round2 (row.eft.getD 0)))
      ∧ (assign_payment_status row = ""
        ↔ ¬(0 < round2 (row.drawdown.getD 0)
              ∧ round2 row.boxTotal = round2 (row.drawdown.getD 0))
          ∧ ¬(0 < round2 (row.creditCard.getD 0)
              ∧ round2 row.boxTotal = round2 (row.creditCard.getD 0))
          ∧ ¬(0 < round2 (row.purchaseOrders.getD 0)
              ∧ round2 row.boxTotal = round2 (row.purchaseOrders.getD 0))
          ∧ ¬(0 < round2 (row.eft.getD 0)
              ∧ round2 row.boxTotal = round2 (row.eft.getD 0))))
    ∧ assign_payment_status ⟨[98], [102], 100, some 0, some 100, some 0, some 0⟩
        = "Credit Card"
    ∧ assign_payment_status ⟨[98], [102], 100, some 100, some 0, some 0, some 0⟩
        = "Drawdown" := by
  refine ⟨?_, ?_, ?_⟩
  · intro row
    simp only [assign_payment_status]
    split_ifs with hd hc hp he
    · exact ⟨iff_of_true rfl hd,
        iff_of_false (by decide) (fun h => h.1 hd),
        iff_of_false (by decide) (fun h => h.1 hd),
        iff_of_false (by decide) (fun h => h.1 hd),
        iff_of_false (by decide) (fun h => h.1 hd)⟩
    · exact ⟨iff_of_false (by decide) hd,
        iff_of_true rfl ⟨hd, hc⟩,
        iff_of_false (by decide) (fun h => h.2.1 hc),
        iff_of_false (by decide) (fun h => h.2.1 hc),
        iff_of_false (by decide) (fun h => h.2.1 hc)⟩
    · exact ⟨iff_of_false (by decide) hd,
        iff_of_false (by decide) (fun h => hc h.2),
        iff_of_true rfl ⟨hd, hc, hp⟩,
        iff_of_false (by decide) (fun h => h.2.2.1 hp),
        iff_of_false (by decide) (fun h => h.2.2.1 hp)⟩
    · exact ⟨iff_of_false (by decide) hd,
        iff_of_false (by decide) (fun h => hc h.2),
        iff_of_false (by decide) (fun h => hp h.2.2),
        iff_of_true rfl ⟨hd, hc, hp, he⟩,
        iff_of_false (by decide) (fun h => h.2.2.2 he)⟩
    · exact ⟨iff_of_false (by decide) hd,
        iff_of_false (by decide) (fun h => hc h.2),
        iff_of_false (by decide) (fun h => hp h.2.2),
        iff_of_false (by decide) (fun h => he h.2.2.2),
        iff_of_true rfl ⟨hd, hc, hp, he⟩⟩
  · norm_num [assign_payment_status, round2_zero, round2_hundred]
  · norm_num [assign_payment_status, round2_zero, round2_hundred]

/-- C3 counterexample: with a negative amount in a duplicate-key group,
zeroing the later row raises the total, so de-duplication can increase the
summed amount. -/
theorem C3_counterexample :
    sumTotal ([⟨0, 5, 0⟩, ⟨0, -3, 1⟩] : List (LRow Nat Nat))
      < sumTotal (lumpsum_deduping (fun x y => decide (x ≤ y))
          ([⟨0, 5, 0⟩, ⟨0, -3, 1⟩] : List (LRow Nat Nat))) := by
  have h : lumpsum_deduping (fun x y => decide (x ≤ y))
      ([⟨0, 5, 0⟩, ⟨0, -3, 1⟩] : List (LRow Nat Nat))
      = [⟨0, 5, 0⟩, ⟨0, 0, 1⟩] := by decide
  rw [h]
  norm_num [sumTotal]

/-- C3 (amended): when every amount of the input table is non-negative —
as holds for genuine currency exports — lump-sum de-duplication never
increases the summed `Total`, for every input table and every choice of
join keys. -/
theorem C3_amended_dedup_monotone {κ ρ : Type} [DecidableEq κ] [DecidableEq ρ]
    (le : κ → κ → Bool) (df : List (LRow κ ρ))
    (hnn : ∀ r ∈ df, 0 ≤ r.total) :
    sumTotal (lumpsum_deduping le df) ≤ sumTotal df := by
  rw [lumpsum_deduping]
  have hsnn : ∀ x ∈ sortBy (fun a b => le a.key b.key) df, 0 ≤ x.total := by
    intro x hx
    exact hnn x ((perm_sortBy _ df).mem_iff.mp hx)
  have hgnn := groupApply_clear_nonneg _ hsnn
  have h1 := sublist_sumTotal_le
    (dropDupKeysAux_sublist id []
      (groupApply clear_lumpsums LRow.key (sortBy (fun a b => le a.key b.key) df)))
    hgnn
  have h2 := groupApply_clear_sum_le _ hsnn
  have h3 : sumTotal (sortBy (fun a b => le a.key b.key) df) = sumTotal df :=
    ((perm_sortBy _ df).map LRow.total).sum_eq
  exact h1.trans (h2.trans_eq h3)

/-- Witness for C3 (amended) at a concrete non-negative table. -/
theorem C3_amended_dedup_monotone_witness :
    (∀ r ∈ ([⟨0, 5, 0⟩, ⟨0, 3, 1⟩] : List (LRow Nat Nat)), 0 ≤ r.total)
    ∧ sumTotal (lumpsum_deduping (fun x y => decide (x ≤ y))
        ([⟨0, 5, 0⟩, ⟨0, 3, 1⟩] : List (LRow Nat Nat)))
      ≤ sumTotal ([⟨0, 5, 0⟩, ⟨0, 3, 1⟩] : List (LRow Nat Nat)) := by
  have hnn : ∀ r ∈ ([⟨0, 5, 0⟩, ⟨0, 3, 1⟩] : List (LRow Nat Nat)), 0 ≤ r.total := by
    intro r hr
    rcases List.mem_cons.mp hr with h | h
    · rw [h]; norm_num
    · rcases List.mem_cons.mp h with h2 | h2
      · rw [h2]; norm_num
      · simp at h2
  exact ⟨hnn, C3_amended_dedup_monotone _ _ hnn⟩

/-- C4: `lumpsum_deduping` — sort by the join key (which includes the
ordering timestamp whenever that column is present), apply the group-wise
zeroing, drop exact duplicates — equals the spec's description: in the
sorted frame only the first row of every group of equal join keys keeps
its `Total`, every subsequent row of the group gets `Total` 0, and
exact-duplicate rows are then dropped. -/
theorem C4_lumpsum_dedup_spec {κ ρ : Type} [DecidableEq κ] [DecidableEq ρ]
    [LinearOrder κ] (df : List (LRow κ ρ)) :
    lumpsum_deduping (fun x y => decide (x ≤ y)) df = lumpsum_spec df :=
  congrArg (dropDupKeysAux id [])
    (groupApply_clear_eq_zeroNonFirst
      (sortBy (fun a b : LRow κ ρ => decide (a.key ≤ b.key)) df).length _
      le_rfl (grouped_sortBy df))

/-- C5: every `BoxTotal` amount is the sum of the `PreOrderTotal` amounts
of the completed merged lines for its `(location, event)` after the
`(event, date)` restriction; every line that contributes is Completed and
matches the selection. -/
theorem C5_box_totals (rows : List CompletedLine) (selEvent : PyStr)
    (selDate : Nat) (b : BoxTotalRow)
    (hb : b ∈ box_totals (completed_filter rows selEvent selDate)) :
    b.boxTotal = (((completed_filter rows selEvent selDate).filter
        (fun x => decide (x.location = b.location ∧ x.event = b.event))).map
      CompletedLine.preOrderTotal).sum
    ∧ ∀ x ∈ completed_filter rows selEvent selDate,
        x.preOrderStatus = "Completed" ∧ x.event = pyLower (pyStrip selEvent)
        ∧ x.eventDate = selDate := by
  constructor
  · rw [box_totals] at hb
    obtain ⟨r, _, rfl⟩ := List.mem_map.mp hb
    rfl
  · intro x hx
    unfold completed_filter at hx
    have h2 := List.mem_filter.mp hx
    have h1 := List.mem_filter.mp h2.1
    have hst := of_decide_eq_true h1.2
    have hev := of_decide_eq_true h2.2
    exact ⟨hst, hev.1, hev.2⟩

/-- Witness for C5 at a one-line table. -/
theorem C5_box_totals_witness :
    ((⟨[98], [102], 45⟩ : BoxTotalRow)
      ∈ box_totals (completed_filter [⟨[98], [102], 5, "Completed", 45⟩] [102] 5))
    ∧ ((⟨[98], [102], 45⟩ : BoxTotalRow).boxTotal
        = (((completed_filter [⟨[98], [102], 5, "Completed", 45⟩] [102] 5).filter
            (fun x => decide (x.location = (⟨[98], [102], 45⟩ : BoxTotalRow).location
              ∧ x.event = (⟨[98], [102], 45⟩ : BoxTotalRow).event))).map
          CompletedLine.preOrderTotal).sum
      ∧ ∀ x ∈ completed_filter [⟨[98], [102], 5, "Completed", 45⟩] [102] 5,
          x.preOrderStatus = "Completed" ∧ x.event = pyLower (pyStrip [102])
          ∧ x.eventDate = 5) := by
  have hcf : completed_filter [⟨[98], [102], 5, "Completed", 45⟩] [102] 5
      = [⟨[98], [102], 5, "Completed", 45⟩] := by decide
  have hb : (⟨[98], [102], 45⟩ : BoxTotalRow)
      ∈ box_totals (completed_filter [⟨[98], [102], 5, "Completed", 45⟩] [102] 5) := by
    rw [hcf]
    simp [box_totals, dropDupKeysAux, List.filter]
  exact ⟨hb, C5_box_totals _ _ _ _ hb⟩

/-- C7 counterexample: two manual rows that share the six merge keys but
have different `Ordered_on` timestamps both join the same menu line; they
fall into different lump-sum groups (the timestamp is part of the group
key), survive de-duplication as distinct rows, and agree on all seven
fields (event id, location, event, guest name, guest email, order type,
menu item) — so the merged lines are not uniquely keyed by the seven-field
composite, and one raw record matched an API line it shares with another. -/
theorem C7_counterexample :
    ∃ r1 ∈ lumpsum_deduping mkeyLe
        (merge_manual_api [mA, mB] (process_api_menu_dedup [aA])),
    ∃ r2 ∈ lumpsum_deduping mkeyLe
        (merge_manual_api [mA, mB] (process_api_menu_dedup [aA])),
      r1 ≠ r2 ∧ merged_key7 r1 = merged_key7 r2 := by decide

/-- C7 (amended): after `process_api_menu`'s de-duplication the API menu
lines are uniquely keyed by the seven fields — no two distinct menu rows
share all of (event id, location, event, guest name, guest email, order
type, menu item) — and hence a raw order record matches at most one API
menu line per menu item in the join (though possibly several lines with
different menu items, and distinct merged rows may still share the seven
fields). -/
theorem C7_amended_menu_key_unique (menu : List ApiMenuRow) (m : ManualRow) :
    (process_api_menu_dedup menu).Pairwise (fun a b => menuKey7 a ≠ menuKey7 b)
    ∧ ((process_api_menu_dedup menu).filter
        (fun a => decide (menuKey6 a = manualKey6 m))).Pairwise
      (fun a b => a.menuItem ≠ b.menuItem) := by
  constructor
  · exact pairwise_dropDupKeysAux menuKey7 [] menu
  · have hp := pairwise_dropDupKeysAux menuKey7 [] menu
    have hps : ((process_api_menu_dedup menu).filter
        (fun a => decide (menuKey6 a = manualKey6 m))).Pairwise
          (fun a b => menuKey7 a ≠ menuKey7 b) :=
      List.Pairwise.sublist (List.filter_sublist _) hp
    refine List.Pairwise.imp_of_mem ?_ hps
    intro a b ha hb hne he
    apply hne
    have h6a : menuKey6 a = manualKey6 m := of_decide_eq_true (List.mem_filter.mp ha).2
    have h6b : menuKey6 b = manualKey6 m := of_decide_eq_true (List.mem_filter.mp hb).2
    simp only [menuKey6, manualKey6, Prod.mk.injEq] at h6a h6b
    simp only [menuKey7, Prod.mk.injEq]
    exact ⟨h6a.1.trans h6b.1.symm, h6a.2.1.trans h6b.2.1.symm,
      h6a.2.2.1.trans h6b.2.2.1.symm, h6a.2.2.2.1.trans h6b.2.2.2.1.symm,
      h6a.2.2.2.2.1.trans h6b.2.2.2.2.1.symm,
      h6a.2.2.2.2.2.trans h6b.2.2.2.2.2.symm, he⟩

end ServicesPortal
